import Mathlib

/-!
Shallow embedding of `scripts/find-unreferenced-yaml.py`.

The script scans a Kustomize manifest tree for YAML files that are not
referenced by any `kustomization.yaml`.  We embed its pure logic:

* YAML values produced by `yaml.safe_load` are modelled by the inductive
  `Yaml` (the parser itself is the external PyYAML library, so its outcome
  — a parsed value or a `yaml.YAMLError` — is supplied as data of type
  `ParseOutcome`).
* Python's file reads are modelled as `Except String String`
  (`.error e` = the read raised an exception with text `e`,
  `.ok content` = `read_text` returned `content`).
* Python `set` is modelled as a duplicate-free `List String` built by
  `insertRef`; all claims about the set are membership claims.
* Exceptions raised *inside* reference extraction (e.g. `AttributeError`
  when a `path:` value is not a string) are caught by the outer
  `except Exception` in `get_referenced_files`, which returns the
  partially built set.  We model this with `PRes`: the accumulated set
  plus an optional pending exception; `bindP` short-circuits exactly the
  way an exception aborts the remaining Python loop iterations.
* File-system paths are lists of components (`List String`); Python's
  `sorted` on `Path` objects compares the tuple of components
  lexicographically, which `pathLe` reproduces.
-/

/-- Python substring test `needle in hay` on character lists:
`hasPrefixC l n` is `n` being a prefix of `l`. -/
def hasPrefixC : List Char → List Char → Bool
  | _, [] => true
  | [], _ :: _ => false
  | a :: as, b :: bs => a = b && hasPrefixC as bs

/-- `containsSub needle hay`: does `hay` contain `needle` as a contiguous
sublist (Python's `needle in hay` for strings)? -/
def containsSub (needle : List Char) : List Char → Bool
  | [] => hasPrefixC [] needle
  | c :: t => hasPrefixC (c :: t) needle || containsSub needle t

/-- Python `needle in hay` for strings. -/
def strContains (hay needle : String) : Bool :=
  containsSub needle.data hay.data

/-- Python `s.startswith(p)` (kernel-computable prefix test). -/
def startsWithS (s p : String) : Bool :=
  hasPrefixC s.data p.data

/-- Python-style suffix test (kernel-computable). -/
def endsWithS (s p : String) : Bool :=
  hasPrefixC s.data.reverse p.data.reverse

/-- Splitting on a one-character separator, keeping empty pieces —
the behavior of Python `s.split(sep)` and of `str.splitOn` for a
single-character separator. -/
def splitOnCharAux (sep : Char) : List Char → List Char → List (List Char)
  | [], acc => [acc.reverse]
  | c :: t, acc =>
      if c = sep then acc.reverse :: splitOnCharAux sep t []
      else splitOnCharAux sep t (c :: acc)

/-- Split a string on a one-character separator. -/
def splitOnC (sep : Char) (s : String) : List String :=
  (splitOnCharAux sep s.data []).map String.mk

/-- ASCII lowercasing, as `str.lower()` behaves on the ASCII pattern
alphabet used by the script. -/
def toLowerS (s : String) : String :=
  ⟨s.data.map Char.toLower⟩

/-- `os.path.basename`: everything after the last `/` (the whole string
when there is no `/`). -/
def basename (s : String) : String :=
  ⟨(s.data.reverse.takeWhile (fun c => c ≠ '/')).reverse⟩

/-- Values `yaml.safe_load` can hand to the script.  Mapping keys are
modelled as strings (the script only ever looks up string keys; the
parsed dict has unique keys). -/
inductive Yaml where
  | str (s : String)
  | seq (items : List Yaml)
  | map (entries : List (String × Yaml))
  | null
  | bool (b : Bool)
  | int (n : Int)

/-- Python truthiness of a parsed YAML value (`if data[field]:`). -/
def yamlTruthy : Yaml → Bool
  | .str s => !s.data.isEmpty
  | .seq l => !l.isEmpty
  | .map l => !l.isEmpty
  | .null => false
  | .bool b => b
  | .int n => n != 0

/-- `k in d` for the modelled dict. -/
def hasKey (m : List (String × Yaml)) (k : String) : Bool :=
  m.any (fun kv => kv.1 = k)

/-- `d[k]` for the modelled dict (defaulting to YAML null; the script only
reads keys it has checked for). -/
def lookupY (m : List (String × Yaml)) (k : String) : Yaml :=
  match m.find? (fun kv => kv.1 = k) with
  | some kv => kv.2
  | none => .null

/-- Python `for x in v`: sequences yield their items, strings yield their
characters as one-character strings, dicts yield their keys; `None`,
booleans and integers raise `TypeError`. -/
def iterY : Yaml → Except String (List Yaml)
  | .seq l => .ok l
  | .str s => .ok (s.data.map (fun c => .str ⟨[c]⟩))
  | .map m => .ok (m.map (fun kv => .str kv.1))
  | .null => .error "TypeError"
  | .bool _ => .error "TypeError"
  | .int _ => .error "TypeError"

/-- Result of a Python `set.add` with set-as-list semantics. -/
def insertRef (n : String) (r : List String) : List String :=
  if n ∈ r then r else n :: r

/-- State of reference extraction: the set built so far plus the pending
exception, if one was raised (the Python set is mutated in place, so the
outer handler still sees everything added before the exception). -/
structure PRes where
  refs : List String
  err : Option String
  deriving DecidableEq, Repr

/-- Sequencing in the presence of a pending exception: once raised,
nothing further runs. -/
def bindP (p : PRes) (f : List String → PRes) : PRes :=
  match p.err with
  | some _ => p
  | none => f p.refs

/-- `KustomizationParser._add_local_file` on an actual string argument:
add the basename when the path is truthy, does not start with `http`,
and either has no `/` or starts with `./`. -/
def add_local_file (path : String) (referenced : List String) : List String :=
  if !path.data.isEmpty && !startsWithS path "http" then
    if !(path.data.contains '/') || startsWithS path "./" then
      insertRef (basename path) referenced
    else referenced
  else referenced

/-- `KustomizationParser._add_local_file` on an arbitrary value: a truthy
non-string raises `AttributeError` at `path.startswith`; a falsy value is
skipped by `if path`. -/
def add_local_fileY (v : Yaml) (referenced : List String) : PRes :=
  match v with
  | .str s => ⟨add_local_file s referenced, none⟩
  | v => if yamlTruthy v then ⟨referenced, some "AttributeError"⟩ else ⟨referenced, none⟩

/-- `KustomizationParser._extract_file_reference`. -/
def extract_file_reference (item : Yaml) (referenced : List String) : PRes :=
  match item with
  | .str s =>
      if !startsWithS s "http" then ⟨add_local_file s referenced, none⟩
      else ⟨referenced, none⟩
  | .map m =>
      if hasKey m "files" then
        match iterY (lookupY m "files") with
        | .error e => ⟨referenced, some e⟩
        | .ok fs =>
            ⟨fs.foldl (fun acc f =>
                match f with
                | .str s => add_local_file s acc
                | _ => acc) referenced, none⟩
      else if hasKey m "path" then add_local_fileY (lookupY m "path") referenced
      else ⟨referenced, none⟩
  | _ => ⟨referenced, none⟩

/-- Fields of a kustomization file that can reference other files
(`KustomizationParser.FILE_REFERENCE_FIELDS`). -/
def FILE_REFERENCE_FIELDS : List String :=
  ["resources", "patches", "patchesStrategicMerge", "patchesJson6902",
   "configurations", "crds", "openapi", "generators", "transformers",
   "components", "configMapGenerator", "secretGenerator"]

/-- One iteration of the field loop in
`KustomizationParser._parse_yaml_references`. -/
def parse_field (m : List (String × Yaml)) (referenced : List String)
    (field : String) : PRes :=
  if hasKey m field && yamlTruthy (lookupY m field) then
    match lookupY m field with
    | .seq items =>
        items.foldl (fun pr it => bindP pr (extract_file_reference it)) ⟨referenced, none⟩
    | _ => ⟨referenced, none⟩
  else ⟨referenced, none⟩

/-- The trailing `patches`-with-`target` block of
`KustomizationParser._parse_yaml_references`. -/
def parse_patches_block (m : List (String × Yaml)) (referenced : List String) : PRes :=
  if hasKey m "patches" then
    match lookupY m "patches" with
    | .seq patches =>
        patches.foldl (fun pr patch =>
          bindP pr (fun r =>
            match patch with
            | .map pm =>
                if hasKey pm "path" then add_local_fileY (lookupY pm "path") r
                else ⟨r, none⟩
            | _ => ⟨r, none⟩)) ⟨referenced, none⟩
    | _ => ⟨referenced, none⟩
  else ⟨referenced, none⟩

/-- `KustomizationParser._parse_yaml_references` on a parsed mapping. -/
def parse_yaml_references (m : List (String × Yaml)) : PRes :=
  bindP (FILE_REFERENCE_FIELDS.foldl (fun pr field => bindP pr (fun r => parse_field m r field))
          ⟨[], none⟩)
    (fun r => parse_patches_block m r)

/-- Characters Python's `\s` matches inside one line (no newline can occur
inside a line split on newlines). -/
def isWS (c : Char) : Bool :=
  c = ' ' || c = '\t' || c = '\r' || c = '\x0b' || c = '\x0c'

/-- Characters admitted by `[^/\s#]` in the fallback regex. -/
def isNameChar (c : Char) : Bool :=
  !isWS c && c != '/' && c != '#'

/-- Does a token consisting of `[^/\s#]` characters fully match
`[^/\s#]+\.(yaml|yml)` (a nonempty stem, then `.yaml` or `.yml`)? -/
def yamlTokenOk (tok : List Char) : Bool :=
  (endsWithS (String.mk tok) ".yaml" && decide (6 ≤ tok.length)) ||
  (endsWithS (String.mk tok) ".yml" && decide (5 ≤ tok.length))

/-- Match of the fallback regex `^\s*-\s*([^/\s#]+\.(yaml|yml))\s*(?:#.*)?$`
against a single line, returning the captured filename. -/
def lineMatch (line : String) : Option String :=
  match line.data.dropWhile isWS with
  | '-' :: rest =>
      let rest2 := rest.dropWhile isWS
      let tok := rest2.takeWhile isNameChar
      let after := (rest2.dropWhile isNameChar).dropWhile isWS
      if yamlTokenOk tok && (after.isEmpty || after.headD ' ' = '#') then
        some (String.mk tok)
      else none
  | _ => none

/-- `KustomizationParser._parse_regex_references`: fallback line-oriented
extraction used when YAML parsing fails. -/
def parse_regex_references (content : String) (referenced : List String) : List String :=
  (splitOnC '\n' content).foldl (fun acc line =>
    match lineMatch line with
    | some n => insertRef n acc
    | none => acc) referenced

/-- Outcome of `yaml.safe_load` on the file's content: a value, or a
`yaml.YAMLError`. -/
inductive ParseOutcome where
  | ok (v : Yaml)
  | err

/-- What the file system gives the script for one file: the read fails
with an exception text, or yields content (together with what the YAML
library would make of that content). -/
inductive FileInput where
  | unreadable (msg : String)
  | readable (content : String) (parsed : ParseOutcome)

/-- `KustomizationParser.get_referenced_files`.  Returns the reference
set and the diagnostic printed to stderr, if any.  The outer
`except Exception` catches both read errors and exceptions escaping
`_parse_yaml_references`, prints a diagnostic, and falls through to
`return referenced` (the partially built set). -/
def get_referenced_files (pathStr : String) : FileInput → List String × Option String
  | .unreadable e => ([], some ("Error reading " ++ pathStr ++ ": " ++ e))
  | .readable content po =>
    match po with
    | .err => (parse_regex_references content [], none)
    | .ok (.map m) =>
        let p := parse_yaml_references m
        (p.refs, p.err.map (fun e => "Error reading " ++ pathStr ++ ": " ++ e))
    | .ok _ => ([], none)

/-- `pathlib.Path.suffix` of a file name: the part from the last dot,
provided that dot is neither the first nor the last character. -/
def suffix (name : String) : String :=
  let parts := splitOnC '.' name
  if 2 ≤ parts.length && parts.getLastD "" ≠ "" &&
      (2 < parts.length || parts.headD "" ≠ "") then
    "." ++ parts.getLastD ""
  else ""

/-- `file.suffix in ('.yaml', '.yml')`. -/
def isYamlSuffix (name : String) : Bool :=
  suffix name = ".yaml" || suffix name = ".yml"

/-- One file of the modelled file system: its name, the outcome of
reading it, and what `yaml.safe_load` would return on its content (only
meaningful when the read succeeds). -/
structure FSFile where
  name : String
  read : Except String String
  parsed : ParseOutcome

/-- One directory of the modelled file system: its path components and
the plain files directly inside it (entries that are subdirectories are
excluded by `file.is_file()` in the script, so they are not modelled). -/
structure FSDir where
  path : List String
  files : List FSFile

/-- What `get_referenced_files` is given for one file. -/
def fileInput (f : FSFile) : FileInput :=
  match f.read with
  | .error e => .unreadable e
  | .ok content => .readable content f.parsed

/-- Does the directory contain a file literally named `kustomization.yaml`? -/
def hasKustomization (d : FSDir) : Bool :=
  d.files.any (fun f => f.name = "kustomization.yaml")

/-- The directory's `kustomization.yaml` file (meaningful when
`hasKustomization` holds; a missing file is treated as unreadable, which
matches the `exists()` guard returning `[]` before any read). -/
def kustFile (d : FSDir) : FSFile :=
  match d.files.find? (fun f => f.name = "kustomization.yaml") with
  | some f => f
  | none => ⟨"kustomization.yaml", .error "missing", .err⟩

/-- Rendering of a `pathlib.Path` as a string. -/
def pathStr (p : List String) : String :=
  String.intercalate "/" p

/-- `UnreferencedFileAnalyzer._find_unreferenced_in_directory`. -/
def find_unreferenced_in_directory (d : FSDir) : List (List String) :=
  if hasKustomization d then
    let yaml_files := (d.files.filter (fun f =>
        isYamlSuffix f.name && f.name ≠ "kustomization.yaml")).map (fun f => f.name)
    let referenced :=
      (get_referenced_files (pathStr (d.path ++ ["kustomization.yaml"]))
        (fileInput (kustFile d))).1
    (yaml_files.filter (fun n => !(referenced.contains n))).map (fun n => d.path ++ [n])
  else []

/-- Lexicographic comparison of component lists; this is how Python's
`sorted` orders `Path` objects (tuple comparison over the parts). -/
def pathLe : List String → List String → Bool
  | [], _ => true
  | _ :: _, [] => false
  | a :: as, b :: bs => decide (a < b) || (a = b && pathLe as bs)

/-- `UnreferencedFileAnalyzer.find_all_unreferenced`: the directories are
given in the traversal order of `rglob("kustomization.yaml")`; the
concatenated per-directory results are sorted. -/
def find_all_unreferenced (fs : List FSDir) : List (List String) :=
  ((fs.map find_unreferenced_in_directory).flatten).mergeSort pathLe

/-- `FileStatus`. -/
inductive FileStatus where
  | safe_to_remove
  | needs_review
  deriving DecidableEq, Repr

/-- `AnalysisResult`. -/
structure AnalysisResult where
  filepath : List String
  status : FileStatus
  reason : String
  deriving DecidableEq, Repr

/-- `UnreferencedFileAnalyzer.SAFE_PATTERNS`. -/
def SAFE_PATTERNS : List String :=
  ["job-", "-job.yaml", "postgres-setup.yaml", "vault-secrets-init.yaml",
   "authelia-db-", "fix-pool-size.yaml", "job.yaml"]

/-- `UnreferencedFileAnalyzer.IMPORTANT_MARKERS`. -/
def IMPORTANT_MARKERS : List String :=
  ["IMPORTANT", "DO NOT DELETE", "KEEP"]

/-- `UnreferencedFileAnalyzer.TEST_PATTERNS`. -/
def TEST_PATTERNS : List String :=
  ["test", "example", "sample", ".bak", ".old"]

/-- `filepath.name`: the last path component. -/
def pathName (p : List String) : String :=
  p.getLastD ""

/-- `UnreferencedFileAnalyzer.analyze_file`.  The read outcome of the
file is passed explicitly; any read exception is caught and turned into
a needs-review result carrying the exception text. -/
def analyze_file (filepath : List String) (read : Except String String) : AnalysisResult :=
  match read with
  | .error e => ⟨filepath, .needs_review, "Error reading file: " ++ e⟩
  | .ok content =>
    if IMPORTANT_MARKERS.any (fun marker => strContains content marker) then
      ⟨filepath, .needs_review, "Contains important markers"⟩
    else if strContains content "kind: Job" &&
        (strContains (pathName filepath) "job-" || strContains (pathName filepath) "-job") then
      ⟨filepath, .safe_to_remove, "Old Job file (likely replaced by workflow)"⟩
    else if SAFE_PATTERNS.any (fun pattern => strContains (pathStr filepath) pattern) then
      ⟨filepath, .safe_to_remove, "Matches old job pattern"⟩
    else if TEST_PATTERNS.any (fun pattern => strContains (toLowerS (pathName filepath)) pattern) then
      ⟨filepath, .safe_to_remove, "Test/example/backup file"⟩
    else
      ⟨filepath, .needs_review, "Unknown file - manual review needed"⟩

/-- Observable outcome of `main`: the exit status, the stderr diagnostic
if any, and the sorted list of unreferenced paths when the scan ran. -/
structure MainResult where
  exitCode : Nat
  diagnostic : Option String
  output : Option (List (List String))

/-- The script's `main` (Lean reserves the name `main` for executables,
so the model is called `main_entry`): aborts with status 1 before any
scanning when the `manifests` directory is missing; otherwise scans and
completes with implicit status 0 whether or not unreferenced files were
found. -/
def main_entry (manifests_exists : Bool) (manifests_dir : String) (fs : List FSDir) : MainResult :=
  if manifests_exists then
    ⟨0, none, some (find_all_unreferenced fs)⟩
  else
    ⟨1, some ("Error: manifests directory not found at " ++ manifests_dir), none⟩

/-! ## Helper lemmas -/

theorem mem_insertRef_iff {x n : String} {r : List String} :
    x ∈ insertRef n r ↔ x = n ∨ x ∈ r := by
  unfold insertRef
  by_cases h : n ∈ r
  · simp only [if_pos h]
    constructor
    · exact Or.inr
    · rintro (rfl | hx)
      · exact h
      · exact hx
  · simp [if_neg h]

theorem noSlash_basename (s : String) : '/' ∉ (basename s).data := by
  intro hmem
  have h := List.mem_takeWhile_imp (List.mem_reverse.mp hmem)
  simp at h

theorem mem_add_local_file {x p : String} {r : List String}
    (h : x ∈ add_local_file p r) : x ∈ r ∨ x = basename p := by
  unfold add_local_file at h
  split at h
  · split at h
    · rcases mem_insertRef_iff.mp h with rfl | hx
      · exact Or.inr rfl
      · exact Or.inl hx
    · exact Or.inl h
  · exact Or.inl h

theorem pres_add_local_file {p : String} {r : List String}
    (hr : ∀ x ∈ r, '/' ∉ x.data) : ∀ x ∈ add_local_file p r, '/' ∉ x.data := by
  intro x hx
  rcases mem_add_local_file hx with hx' | rfl
  · exact hr x hx'
  · exact noSlash_basename p

theorem pres_add_local_fileY {v : Yaml} {r : List String}
    (hr : ∀ x ∈ r, '/' ∉ x.data) : ∀ x ∈ (add_local_fileY v r).refs, '/' ∉ x.data := by
  cases v <;> simp only [add_local_fileY] <;> first
    | exact pres_add_local_file hr
    | (split <;> exact hr)

theorem foldl_pres_list {α : Type} (P : String → Prop) (step : List String → α → List String)
    (hstep : ∀ r a, (∀ x ∈ r, P x) → ∀ x ∈ step r a, P x) :
    ∀ (l : List α) (r : List String), (∀ x ∈ r, P x) → ∀ x ∈ l.foldl step r, P x := by
  intro l
  induction l with
  | nil => intro r hr; exact hr
  | cons a t ih => intro r hr; exact ih (step r a) (hstep r a hr)

theorem foldl_pres_pres {α : Type} (P : String → Prop) (step : PRes → α → PRes)
    (hstep : ∀ pr a, (∀ x ∈ pr.refs, P x) → ∀ x ∈ (step pr a).refs, P x) :
    ∀ (l : List α) (pr : PRes), (∀ x ∈ pr.refs, P x) → ∀ x ∈ (l.foldl step pr).refs, P x := by
  intro l
  induction l with
  | nil => intro pr hpr; exact hpr
  | cons a t ih => intro pr hpr; exact ih (step pr a) (hstep pr a hpr)

theorem pres_bindP (P : String → Prop) {p : PRes} {f : List String → PRes}
    (hp : ∀ x ∈ p.refs, P x) (hf : ∀ r, (∀ x ∈ r, P x) → ∀ x ∈ (f r).refs, P x) :
    ∀ x ∈ (bindP p f).refs, P x := by
  unfold bindP
  cases h : p.err with
  | some e => exact hp
  | none => exact hf p.refs hp

theorem pres_extract_file_reference {item : Yaml} {r : List String}
    (hr : ∀ x ∈ r, '/' ∉ x.data) :
    ∀ x ∈ (extract_file_reference item r).refs, '/' ∉ x.data := by
  cases item with
  | str s =>
      simp only [extract_file_reference]
      split
      · exact pres_add_local_file hr
      · exact hr
  | map m =>
      simp only [extract_file_reference]
      split
      · split
        · exact hr
        · exact foldl_pres_list _ _
            (fun r' f hr' => by
              cases f <;> simp only [] <;> first
                | exact pres_add_local_file hr'
                | exact hr') _ r hr
      · split
        · exact pres_add_local_fileY hr
        · exact hr
  | seq l => exact hr
  | null => exact hr
  | bool b => exact hr
  | int n => exact hr

theorem pres_parse_field {m : List (String × Yaml)} {r : List String} {field : String}
    (hr : ∀ x ∈ r, '/' ∉ x.data) :
    ∀ x ∈ (parse_field m r field).refs, '/' ∉ x.data := by
  unfold parse_field
  split
  · split
    · exact foldl_pres_pres _ _
        (fun pr it hpr => pres_bindP _ hpr (fun r' hr' => pres_extract_file_reference hr')) _ _ hr
    · exact hr
  · exact hr

theorem pres_parse_patches_block {m : List (String × Yaml)} {r : List String}
    (hr : ∀ x ∈ r, '/' ∉ x.data) :
    ∀ x ∈ (parse_patches_block m r).refs, '/' ∉ x.data := by
  unfold parse_patches_block
  split
  · split
    · exact foldl_pres_pres _ _
        (fun pr patch hpr => pres_bindP _ hpr (fun r' hr' => by
          cases patch <;> simp only [] <;> first
            | (split
               · exact pres_add_local_fileY hr'
               · exact hr')
            | exact hr')) _ _ hr
    · exact hr
  · exact hr

theorem pres_parse_yaml_references {m : List (String × Yaml)} :
    ∀ x ∈ (parse_yaml_references m).refs, '/' ∉ x.data := by
  unfold parse_yaml_references
  exact pres_bindP _
    (foldl_pres_pres _ _
      (fun pr field hpr => pres_bindP _ hpr (fun r hr => pres_parse_field hr)) _ _
      (by intro x hx; simp at hx))
    (fun r hr => pres_parse_patches_block hr)

theorem lineMatch_noSlash {line x : String} (h : lineMatch line = some x) :
    '/' ∉ x.data := by
  unfold lineMatch at h
  split at h
  case _ rest heq =>
    simp only at h
    split at h
    case isTrue hc =>
      intro hmem
      have hx : x = String.mk ((rest.dropWhile isWS).takeWhile isNameChar) :=
        (Option.some.injEq _ _).mp h |>.symm
      subst hx
      have := List.mem_takeWhile_imp (l := rest.dropWhile isWS) (x := '/') hmem
      simp [isNameChar, isWS] at this
    case isFalse => exact absurd h (by simp)
  case _ => exact absurd h (by simp)

theorem pres_parse_regex_references {content : String} {r : List String}
    (hr : ∀ x ∈ r, '/' ∉ x.data) :
    ∀ x ∈ parse_regex_references content r, '/' ∉ x.data := by
  unfold parse_regex_references
  refine foldl_pres_list _ _ (fun r' line hr' x hx => ?_) _ r hr
  revert hx
  split
  case _ n heq =>
    intro hx
    rcases mem_insertRef_iff.mp hx with rfl | hx'
    · exact lineMatch_noSlash heq
    · exact hr' x hx'
  case _ => exact fun hx => hr' x hx

theorem mem_insertRef_self (n : String) (r : List String) : n ∈ insertRef n r := by
  unfold insertRef
  split
  case isTrue h => exact h
  case isFalse => exact List.mem_cons_self n r

theorem mem_insertRef_mono {x n : String} {r : List String} (h : x ∈ r) :
    x ∈ insertRef n r := by
  unfold insertRef
  split
  case isTrue => exact h
  case isFalse => exact List.mem_cons_of_mem n h

theorem regex_fold_mono {x : String} :
    ∀ (l : List String) (acc : List String), x ∈ acc →
      x ∈ l.foldl (fun acc line =>
        match lineMatch line with
        | some n => insertRef n acc
        | none => acc) acc := by
  intro l
  induction l with
  | nil => intro acc h; exact h
  | cons a t ih =>
      intro acc h
      refine ih _ ?_
      simp only []
      split
      · exact mem_insertRef_mono h
      · exact h

theorem mem_regex_fold {x line : String} :
    ∀ (l : List String) (acc : List String), line ∈ l → lineMatch line = some x →
      x ∈ l.foldl (fun acc line =>
        match lineMatch line with
        | some n => insertRef n acc
        | none => acc) acc := by
  intro l
  induction l with
  | nil => intro acc h; exact absurd h (List.not_mem_nil line)
  | cons a t ih =>
      intro acc hline hmatch
      rcases List.mem_cons.mp hline with rfl | hmem
      · simp only [List.foldl_cons, hmatch]
        exact regex_fold_mono t _ (mem_insertRef_self x acc)
      · exact ih _ hmem hmatch

theorem mem_parse_regex_references {content line x : String} {r : List String}
    (hline : line ∈ splitOnC '\n' content) (hmatch : lineMatch line = some x) :
    x ∈ parse_regex_references content r :=
  mem_regex_fold (splitOnC '\n' content) r hline hmatch

theorem pathLe_iff {a b : String} {as bs : List String} :
    pathLe (a :: as) (b :: bs) = true ↔ a < b ∨ (a = b ∧ pathLe as bs = true) := by
  simp [pathLe, Bool.or_eq_true, Bool.and_eq_true, decide_eq_true_eq]

theorem pathLe_trans :
    ∀ a b c : List String, pathLe a b = true → pathLe b c = true → pathLe a c = true := by
  intro a
  induction a with
  | nil => intro b c _ _; rfl
  | cons x xs ih =>
      intro b c hab hbc
      cases b with
      | nil => exact absurd hab (by simp [pathLe])
      | cons y ys =>
          cases c with
          | nil => exact absurd hbc (by simp [pathLe])
          | cons z zs =>
              rcases pathLe_iff.mp hab with hxy | ⟨rfl, hxs⟩
              · rcases pathLe_iff.mp hbc with hyz | ⟨rfl, _⟩
                · exact pathLe_iff.mpr (Or.inl (lt_trans hxy hyz))
                · exact pathLe_iff.mpr (Or.inl hxy)
              · rcases pathLe_iff.mp hbc with hyz | ⟨rfl, hys⟩
                · exact pathLe_iff.mpr (Or.inl hyz)
                · exact pathLe_iff.mpr (Or.inr ⟨rfl, ih ys zs hxs hys⟩)

theorem pathLe_total :
    ∀ a b : List String, (pathLe a b || pathLe b a) = true := by
  intro a
  induction a with
  | nil => intro b; simp [pathLe]
  | cons x xs ih =>
      intro b
      cases b with
      | nil => simp [pathLe]
      | cons y ys =>
          rcases lt_trichotomy x y with hlt | heq | hgt
          · simp [pathLe_iff.mpr (Or.inl hlt)]
          · subst heq
            rcases Bool.or_eq_true _ _ |>.mp (ih ys) with h | h
            · simp [pathLe_iff.mpr (Or.inr ⟨rfl, h⟩)]
            · have : pathLe (x :: ys) (x :: xs) = true :=
                pathLe_iff.mpr (Or.inr ⟨rfl, h⟩)
              simp [this]
          · have : pathLe (y :: ys) (x :: xs) = true := pathLe_iff.mpr (Or.inl hgt)
            simp [this]

theorem hasPrefixC_refl : ∀ l : List Char, hasPrefixC l l = true
  | [] => rfl
  | c :: t => by simp [hasPrefixC, hasPrefixC_refl t]

theorem containsSub_self : ∀ b : List Char, containsSub b b = true
  | [] => rfl
  | c :: t => by simp [containsSub, hasPrefixC_refl]

theorem containsSub_append : ∀ (a b : List Char), containsSub b (a ++ b) = true := by
  intro a b
  induction a with
  | nil => simpa using containsSub_self b
  | cons c t ih => simp [containsSub, ih]

theorem strContains_append_right (a b : String) : strContains (a ++ b) b = true := by
  unfold strContains
  rw [String.data_append]
  exact containsSub_append a.data b.data

/-! ## Claim theorems -/

/-- C1: for every unreferenced file that can be read, if its content
contains any of the literal substrings `IMPORTANT`, `DO NOT DELETE` or
`KEEP`, then `analyze_file` classifies it needs-review with the
important-markers reason, regardless of any other matching pattern (the
marker check is the first branch, so no Job, legacy-path or
test/example/backup rule can override it). -/
theorem c1_important_markers_dominate (filepath : List String) (content : String)
    (h : ∃ marker ∈ IMPORTANT_MARKERS, strContains content marker = true) :
    analyze_file filepath (.ok content) =
      ⟨filepath, .needs_review, "Contains important markers"⟩ := by
  have hcond : (IMPORTANT_MARKERS.any fun marker => strContains content marker) = true :=
    List.any_eq_true.mpr h
  simp [analyze_file, hcond]

/-- C1 witness: a file whose content holds `IMPORTANT` and `kind: Job`,
and whose name matches both the Job and the test patterns, is still
classified needs-review. -/
theorem c1_witness :
    analyze_file ["manifests", "app", "old-job-test.yaml"]
      (.ok "kind: Job\n# IMPORTANT config\n") =
      ⟨["manifests", "app", "old-job-test.yaml"], .needs_review,
        "Contains important markers"⟩ :=
  c1_important_markers_dominate _ _ (by decide)

/-- C4: a readable unreferenced file whose lowercase filename contains
`test`, `example`, `sample`, `.bak` or `.old`, whose content has no
important marker, and which does not match the Job rule, is classified
safe-to-remove (either by the legacy-path rule or by the
test/example/backup rule — both return safe-to-remove). -/
theorem c4_test_pattern_safe (filepath : List String) (content : String)
    (h1 : ∀ marker ∈ IMPORTANT_MARKERS, strContains content marker = false)
    (h2 : (strContains content "kind: Job" &&
        (strContains (pathName filepath) "job-" ||
         strContains (pathName filepath) "-job")) = false)
    (h3 : ∃ pat ∈ TEST_PATTERNS, strContains (toLowerS (pathName filepath)) pat = true) :
    (analyze_file filepath (.ok content)).status = .safe_to_remove := by
  have hc1 : (IMPORTANT_MARKERS.any fun marker => strContains content marker) = false := by
    rw [List.any_eq_false]
    intro marker hm
    simp [h1 marker hm]
  have hc3 : (TEST_PATTERNS.any fun pattern =>
      strContains (toLowerS (pathName filepath)) pattern) = true :=
    List.any_eq_true.mpr h3
  cases hs : (SAFE_PATTERNS.any fun pattern => strContains (pathStr filepath) pattern) with
  | true => simp [analyze_file, hc1, h2, hs]
  | false => simp [analyze_file, hc1, h2, hs, hc3]

/-- C4 witness: `config-test.yaml` with plain content is safe-to-remove. -/
theorem c4_witness :
    (analyze_file ["manifests", "app", "config-test.yaml"]
      (.ok "apiVersion: v1\n")).status = FileStatus.safe_to_remove :=
  c4_test_pattern_safe _ _ (by decide) (by decide) (by decide)

/-- C8: `analyze_file` is total on unreadable files: a read error `e`
yields needs-review with the error text embedded in the reason, and
never aborts (the model is a total function). -/
theorem c8_unreadable_needs_review (filepath : List String) (e : String) :
    analyze_file filepath (.error e) =
      ⟨filepath, .needs_review, "Error reading file: " ++ e⟩ ∧
    strContains (analyze_file filepath (.error e)).reason e = true := by
  refine ⟨rfl, ?_⟩
  show strContains ("Error reading file: " ++ e) e = true
  exact strContains_append_right _ _

/-- C9: when the `manifests` directory is absent, the program exits with
status 1 and a diagnostic naming the missing path, before any scan and
before any output list; when it is present, the program completes with
status 0 and the scan's output, whether or not unreferenced files were
found. -/
theorem c9_exit_behavior (manifests_dir : String) (fs : List FSDir) :
    main_entry false manifests_dir fs =
      ⟨1, some ("Error: manifests directory not found at " ++ manifests_dir), none⟩ ∧
    (main_entry false manifests_dir fs).exitCode ≠ 0 ∧
    (main_entry false manifests_dir fs).output = none ∧
    main_entry true manifests_dir fs = ⟨0, none, some (find_all_unreferenced fs)⟩ := by
  refine ⟨rfl, ?_, rfl, rfl⟩
  simp [main_entry]

/-- C10: a readable file whose content parses to a non-mapping document
(sequence, scalar, null, ...) yields the empty reference set with no
diagnostic; the regex fallback is not applied (it runs only on a parse
error). -/
theorem c10_non_mapping_empty (p content : String) (v : Yaml)
    (h : ∀ m, v ≠ Yaml.map m) :
    get_referenced_files p (.readable content (.ok v)) = ([], none) := by
  cases v with
  | map m => exact absurd rfl (h m)
  | str s => rfl
  | seq l => rfl
  | null => rfl
  | bool b => rfl
  | int n => rfl

/-- C10 witness: a successfully parsed top-level sequence yields the
empty set even though the raw content has a line the regex fallback
would match. -/
theorem c10_witness :
    get_referenced_files "kustomization.yaml"
      (.readable "  - sidecar.yaml" (.ok (.seq [.str "sidecar.yaml"]))) = ([], none) :=
  c10_non_mapping_empty _ _ _ (fun _ h => Yaml.noConfusion h)

theorem mem_add_local_file_iff (p : String) (r : List String) (x : String) :
    x ∈ add_local_file p r ↔
      (x ∈ r ∨ (p.data ≠ [] ∧ startsWithS p "http" = false ∧
        (p.data.contains '/' = false ∨ startsWithS p "./" = true) ∧ x = basename p)) := by
  have hne : p.data.isEmpty = false ↔ p.data ≠ [] := by
    cases p.data <;> simp
  unfold add_local_file
  cases hemp : p.data.isEmpty <;> cases hhttp : startsWithS p "http" <;>
    cases hdot : startsWithS p "./" <;> cases hsl : p.data.contains '/' <;>
      simp_all [mem_insertRef_iff] <;> tauto

/-- C2 counterexample: the claim "no element of the reference set starts
with `http`" is false on the code: the plain reference
`./httpd-config.yaml` passes the `startswith('http')` test (it starts
with `.`), and basename extraction then puts `httpd-config.yaml` — a
string that does start with `http` — into the set. -/
theorem c2_counterexample :
    (get_referenced_files "kustomization.yaml"
      (.readable "resources:\n- ./httpd-config.yaml"
        (.ok (.map [("resources", .seq [.str "./httpd-config.yaml"])])))).1 =
      ["httpd-config.yaml"] ∧
    startsWithS "httpd-config.yaml" "http" = true := by
  constructor
  · decide
  · decide

/-- C2 (amended): every string in the reference set is a local basename
containing no path separator `/` — so it is never a full HTTP(S) URL —
on both the structured path and the regex fallback path; it may however
begin with the letters `http` (e.g. `httpd-config.yaml`). -/
theorem c2_refset_basenames (p : String) (input : FileInput) (x : String)
    (h : x ∈ (get_referenced_files p input).1) :
    x.data.contains '/' = false := by
  have hns : '/' ∉ x.data := by
    cases input with
    | unreadable e => exact absurd h (List.not_mem_nil x)
    | readable content po =>
        cases po with
        | err =>
            exact pres_parse_regex_references
              (by intro y hy; exact absurd hy (List.not_mem_nil y)) x h
        | ok v =>
            cases v with
            | map m => exact pres_parse_yaml_references x h
            | str s => exact absurd h (List.not_mem_nil x)
            | seq l => exact absurd h (List.not_mem_nil x)
            | null => exact absurd h (List.not_mem_nil x)
            | bool b => exact absurd h (List.not_mem_nil x)
            | int n => exact absurd h (List.not_mem_nil x)
  cases hb : x.data.contains '/' with
  | false => rfl
  | true => exact absurd (List.elem_iff.mp hb) hns

/-- C2 witness: the amended invariant evaluated on a concrete input whose
reference set holds `httpd-config.yaml`. -/
theorem c2_refset_basenames_witness :
    ("httpd-config.yaml" : String).data.contains '/' = false :=
  c2_refset_basenames "kustomization.yaml"
    (.readable "resources:\n- ./httpd-config.yaml"
      (.ok (.map [("resources", .seq [.str "./httpd-config.yaml"])])))
    "httpd-config.yaml" (by decide)

/-- C3 counterexample: the claim says a plain-string element is ignored
only when it begins with an HTTP(S) *scheme*, and that the bare local
filename `httpd-config.yaml` is treated as a direct file reference.  The
code tests `item.startswith('http')`, so `httpd-config.yaml` is ignored
and the reference set stays empty. -/
theorem c3_counterexample :
    (get_referenced_files "kustomization.yaml"
      (.readable "resources:\n- httpd-config.yaml"
        (.ok (.map [("resources", .seq [.str "httpd-config.yaml"])])))).1 = [] := by
  decide

/-- C3 (amended): a plain-string sequence element is added to the
reference set (as its basename) exactly when it does not begin with the
substring `http`, is nonempty, and either contains no `/` or begins with
`./`; it is ignored in every other case, never raising. -/
theorem c3_plain_string_reference (s : String) (r : List String) :
    (extract_file_reference (.str s) r).err = none ∧
    ∀ x, x ∈ (extract_file_reference (.str s) r).refs ↔
      (x ∈ r ∨ (s.data ≠ [] ∧ startsWithS s "http" = false ∧
        (s.data.contains '/' = false ∨ startsWithS s "./" = true) ∧ x = basename s)) := by
  cases hhttp : startsWithS s "http" with
  | true =>
      refine ⟨by simp [extract_file_reference, hhttp], fun x => ?_⟩
      simp [extract_file_reference, hhttp]
  | false =>
      refine ⟨by simp [extract_file_reference, hhttp], fun x => ?_⟩
      simpa [extract_file_reference, hhttp] using mem_add_local_file_iff s r x

/-- C5: when YAML parsing fails, `get_referenced_files` never propagates
the parse error: it returns the regex-fallback result (with no
diagnostic), and every list-item line of the content naming a
`.yaml`/`.yml` file contributes its captured filename to the set. -/
theorem c5_fallback_regex (p content line x : String)
    (hline : line ∈ splitOnC '\n' content) (hmatch : lineMatch line = some x) :
    get_referenced_files p (.readable content .err) =
      (parse_regex_references content [], none) ∧
    x ∈ (get_referenced_files p (.readable content .err)).1 := by
  refine ⟨rfl, ?_⟩
  show x ∈ parse_regex_references content []
  exact mem_parse_regex_references hline hmatch

/-- C5 witness: a malformed document containing the line
`  - sidecar.yaml` yields `sidecar.yaml` via fallback parsing. -/
theorem c5_witness :
    get_referenced_files "kustomization.yaml"
      (.readable "resources: [\n  - sidecar.yaml" .err) =
      (parse_regex_references "resources: [\n  - sidecar.yaml" [], none) ∧
    "sidecar.yaml" ∈ (get_referenced_files "kustomization.yaml"
      (.readable "resources: [\n  - sidecar.yaml" .err)).1 :=
  c5_fallback_regex "kustomization.yaml" "resources: [\n  - sidecar.yaml"
    "  - sidecar.yaml" "sidecar.yaml" (by decide) (by decide)

/-- C7: a kustomization file that cannot be read at all produces a
stderr diagnostic and the empty reference set instead of raising, so
every sibling YAML file of its directory is reported unreferenced. -/
theorem c7_unreadable_conservative (p e : String) (d : FSDir)
    (h : (kustFile d).read = Except.error e) (hk : hasKustomization d = true) :
    get_referenced_files p (fileInput (kustFile d)) =
      ([], some ("Error reading " ++ p ++ ": " ++ e)) ∧
    find_unreferenced_in_directory d =
      (d.files.filter (fun f => isYamlSuffix f.name && f.name ≠ "kustomization.yaml")).map
        (fun f => d.path ++ [f.name]) := by
  have hinput : fileInput (kustFile d) = .unreadable e := by
    unfold fileInput
    rw [h]
  constructor
  · rw [hinput]
    rfl
  · unfold find_unreferenced_in_directory
    rw [hinput]
    simp [hk, get_referenced_files, List.map_map, Function.comp]

/-- C7 witness: a directory whose kustomization file raises on read has
both of its sibling YAML files reported unreferenced. -/
theorem c7_witness :
    get_referenced_files "manifests/app/kustomization.yaml"
      (fileInput (kustFile ⟨["manifests", "app"],
        [⟨"kustomization.yaml", .error "Permission denied", .err⟩,
         ⟨"a.yaml", .ok "", .ok .null⟩,
         ⟨"b.yml", .ok "x", .ok .null⟩]⟩)) =
      ([], some ("Error reading " ++ "manifests/app/kustomization.yaml" ++ ": " ++
        "Permission denied")) ∧
    find_unreferenced_in_directory ⟨["manifests", "app"],
        [⟨"kustomization.yaml", .error "Permission denied", .err⟩,
         ⟨"a.yaml", .ok "", .ok .null⟩,
         ⟨"b.yml", .ok "x", .ok .null⟩]⟩ =
      (((⟨["manifests", "app"],
        [⟨"kustomization.yaml", .error "Permission denied", .err⟩,
         ⟨"a.yaml", .ok "", .ok .null⟩,
         ⟨"b.yml", .ok "x", .ok .null⟩]⟩ : FSDir)).files.filter
          (fun f => isYamlSuffix f.name && f.name ≠ "kustomization.yaml")).map
        (fun f => (["manifests", "app"] : List String) ++ [f.name]) :=
  c7_unreadable_conservative "manifests/app/kustomization.yaml" "Permission denied"
    ⟨["manifests", "app"],
      [⟨"kustomization.yaml", .error "Permission denied", .err⟩,
       ⟨"a.yaml", .ok "", .ok .null⟩,
       ⟨"b.yml", .ok "x", .ok .null⟩]⟩ rfl (by decide)

theorem contains_false_iff (l : List String) (n : String) :
    l.contains n = false ↔ n ∉ l := by
  constructor
  · intro h hmem
    have he : List.elem n l = true := List.elem_iff.mpr hmem
    rw [show l.contains n = List.elem n l from rfl] at h
    rw [h] at he
    exact Bool.noConfusion he
  · intro h
    cases hb : l.contains n with
    | false => rfl
    | true => exact absurd (List.elem_iff.mp (show List.elem n l = true from hb)) h

theorem mem_find_unreferenced_in_directory {d : FSDir} {q : List String} :
    q ∈ find_unreferenced_in_directory d ↔
      (hasKustomization d = true ∧ ∃ f ∈ d.files,
        isYamlSuffix f.name = true ∧ f.name ≠ "kustomization.yaml" ∧
        f.name ∉ (get_referenced_files (pathStr (d.path ++ ["kustomization.yaml"]))
          (fileInput (kustFile d))).1 ∧
        q = d.path ++ [f.name]) := by
  unfold find_unreferenced_in_directory
  cases hk : hasKustomization d with
  | false => simp [hk]
  | true =>
      simp only [hk, if_true, List.mem_map, List.mem_filter, Bool.and_eq_true,
        decide_eq_true_eq, Bool.not_eq_true', contains_false_iff, true_and]
      constructor
      · rintro ⟨n, ⟨⟨f, ⟨hf, hyaml, hne⟩, rfl⟩, hnotin⟩, rfl⟩
        exact ⟨f, hf, hyaml, hne, hnotin, rfl⟩
      · rintro ⟨f, hf, hyaml, hne, hnotin, rfl⟩
        exact ⟨f.name, ⟨⟨f, ⟨hf, hyaml, hne⟩, rfl⟩, hnotin⟩, rfl⟩

/-- C6: the Finder is deterministic (a pure function of the modelled
tree), and its output is a `pathLe`-sorted list containing exactly the
paths of YAML files that sit directly beside a `kustomization.yaml` but
are absent from that directory's reference set. -/
theorem c6_finder_deterministic_sorted (fs : List FSDir) :
    find_all_unreferenced fs = find_all_unreferenced fs ∧
    List.Pairwise (fun a b => pathLe a b = true) (find_all_unreferenced fs) ∧
    ∀ q, q ∈ find_all_unreferenced fs ↔
      ∃ d ∈ fs, hasKustomization d = true ∧ ∃ f ∈ d.files,
        isYamlSuffix f.name = true ∧ f.name ≠ "kustomization.yaml" ∧
        f.name ∉ (get_referenced_files (pathStr (d.path ++ ["kustomization.yaml"]))
          (fileInput (kustFile d))).1 ∧
        q = d.path ++ [f.name] := by
  refine ⟨rfl, List.sorted_mergeSort pathLe_trans pathLe_total _, fun q => ?_⟩
  constructor
  · intro hq
    rw [find_all_unreferenced, List.mem_mergeSort, List.mem_flatten] at hq
    obtain ⟨l, hl, hql⟩ := hq
    obtain ⟨d, hd, rfl⟩ := List.mem_map.mp hl
    obtain ⟨hk, f, hf, h1, h2, h3, rfl⟩ := mem_find_unreferenced_in_directory.mp hql
    exact ⟨d, hd, hk, f, hf, h1, h2, h3, rfl⟩
  · rintro ⟨d, hd, hk, f, hf, h1, h2, h3, rfl⟩
    rw [find_all_unreferenced, List.mem_mergeSort, List.mem_flatten]
    exact ⟨find_unreferenced_in_directory d, List.mem_map_of_mem _ hd,
      mem_find_unreferenced_in_directory.mpr ⟨hk, f, hf, h1, h2, h3, rfl⟩⟩
